import Mathlib

/-!
Verification of the LSDAI model-request parsing and download-dispatch pipeline.

This file gives a shallow embedding, over `List Char` strings, of:
  * `modules/model_parser.py`  (tag-driven URL parser and per-URL dedup),
  * `modules/downloader.py`    (single-strategy downloader and session loop),
  * `Docs/Implementation/LSDAI-Simplified/modules/model_parser.py`
                               (text shopping-cart parser with URL validation),
  * `Docs/Implementation/LSDAI-Simplified/scripts/downloader.py`
                               (multi-strategy fallback dispatcher and progress),
and proves / refutes the frozen claims about them.

Python strings are modelled as `List Char` (`Str` below); Python `None`
becomes `Option`; machine-level I/O (file writes, subprocesses, HTTP) is
abstracted by explicit outcome parameters, while all string processing is
translated directly from the source.
-/

abbrev Str := List Char

/-- Whitespace stripped by Python `str.strip()` and matched by the `\s`
regex class (Latin-1 range; rarer Unicode space code points above U+00FF
do not occur in the repository's data). -/
def pyIsSpace (c : Char) : Bool :=
  c = ' ' || c = '\t' || c = '\n' || c = '\r' || c = '\x0b' || c = '\x0c' ||
  c = '\x1c' || c = '\x1d' || c = '\x1e' || c = '\x1f' || c = '\u0085' ||
  c = '\u00a0'

/-- Python `str.strip()`: drop leading and trailing whitespace. -/
def pyStrip (s : Str) : Str :=
  ((s.dropWhile pyIsSpace).reverse.dropWhile pyIsSpace).reverse

/-- Python `str.strip('-')`. -/
def pyStripHyphens (s : Str) : Str :=
  ((s.dropWhile (fun c => c = '-')).reverse.dropWhile (fun c => c = '-')).reverse

/-- Python `str.lower()` (ASCII). -/
def lowerStr (s : Str) : Str := s.map Char.toLower

/-- Characters at which Python `str.splitlines()` breaks a line. -/
def isNewlineChar (c : Char) : Bool :=
  c = '\n' || c = '\r' || c = '\x0b' || c = '\x0c' ||
  c = '\x1c' || c = '\x1d' || c = '\x1e' || c = '\u0085' ||
  c = '\u2028' || c = '\u2029'

/-- Worker for `pySplitlines`; `"\r\n"` counts as a single break and a
trailing break produces no extra empty line, as in Python. -/
def pySplitlinesGo (acc : Str) : Str → List Str
  | [] => [acc.reverse]
  | '\r' :: '\n' :: rest2 =>
    acc.reverse :: (if rest2.isEmpty then [] else pySplitlinesGo [] rest2)
  | c :: rest =>
    if isNewlineChar c then
      acc.reverse :: (if rest.isEmpty then [] else pySplitlinesGo [] rest)
    else
      pySplitlinesGo (c :: acc) rest

/-- Python `str.splitlines()` (`"".splitlines() = []`). -/
def pySplitlines (s : Str) : List Str :=
  if s.isEmpty then [] else pySplitlinesGo [] s

/-- Worker for `pySplitNl`. -/
def pySplitNlGo (acc : Str) : Str → List Str
  | [] => [acc.reverse]
  | c :: rest =>
    if c = '\n' then acc.reverse :: pySplitNlGo [] rest
    else pySplitNlGo (c :: acc) rest

/-- Python `str.split('\n')` (`"".split('\n') = ['']`). -/
def pySplitNl (s : Str) : List Str := pySplitNlGo [] s

/-- Worker for `pyReplace`, with fuel bounded by the string length; each
step consumes at least one character, so the fuel never runs out. -/
def pyReplaceGo (pat repl : Str) : Nat → Str → Str
  | _, [] => []
  | 0, s => s
  | fuel + 1, s@(c :: rest) =>
    if pat ≠ [] ∧ pat.isPrefixOf s then
      repl ++ pyReplaceGo pat repl fuel (s.drop pat.length)
    else
      c :: pyReplaceGo pat repl fuel rest

/-- Python `str.replace(pat, repl)`: replace every non-overlapping
occurrence, scanning left to right.  (The parser only calls it with a
non-empty `pat`, so the empty-pattern case never arises.) -/
def pyReplace (s pat repl : Str) : Str := pyReplaceGo pat repl s.length s

/-- Python's substring test `pat in s`: `pat` occurs contiguously in `s`
(the empty pattern is contained in everything, as in Python). -/
def strContains (s pat : Str) : Bool :=
  match s with
  | [] => pat.isEmpty
  | _ :: rest => pat.isPrefixOf s || strContains rest pat

/-! ## modules/model_parser.py -/

/-- Internal type names of `modules/model_parser.py` (values of `TAG_MAP`). -/
inductive DType where
  | model | vae | lora | embedding | controlnet | upscale | extension
deriving DecidableEq, Repr

/-- `TAG_MAP` of `modules/model_parser.py`, in dict insertion order (the
parser scans tags in this order and stops at the first match). -/
def TAG_LIST : List (Str × DType) :=
  [("#model".toList, .model), ("$ckpt".toList, .model),
   ("#vae".toList, .vae), ("$vae".toList, .vae),
   ("#lora".toList, .lora), ("$lora".toList, .lora),
   ("#embedding".toList, .embedding), ("$emb".toList, .embedding),
   ("#controlnet".toList, .controlnet), ("$cnet".toList, .controlnet),
   ("#upscale".toList, .upscale), ("$ups".toList, .upscale),
   ("#extension".toList, .extension), ("$ext".toList, .extension)]

/-- `DESTINATION_MAP` of `modules/model_parser.py`.  The absolute prefix
(`Path(__file__).parent.parent`) depends on the installation directory and
is abstracted to a project-relative path; every internal type present in
`TAG_MAP` has a configured destination, exactly as in the source. -/
def DESTINATION_MAP : DType → Option Str
  | .model => some "shared_models/Stable-diffusion".toList
  | .vae => some "shared_models/VAE".toList
  | .lora => some "shared_models/Lora".toList
  | .embedding => some "shared_models/embeddings".toList
  | .controlnet => some "shared_models/ControlNet".toList
  | .upscale => some "shared_models/ESRGAN".toList
  | .extension => some "webui_installations/extensions".toList

/-- One download job dict produced by `_parse_custom_urls`. -/
structure DJob where
  url : Str
  destination : Str
  fileName : Option Str
deriving DecidableEq, Repr

/-- `re.search(r'\[(.*?)\]', url)`: the match exists iff some `'['` is
followed by a `']'`; the regex then anchors at the first `'['` of the
string and captures up to the first `']'` after it. -/
def bracketMatch (s : Str) : Option Str :=
  match s.dropWhile (fun c => c ≠ '[') with
  | [] => none
  | _ :: rest =>
    if rest.contains ']' then some (rest.takeWhile (fun c => c ≠ ']')) else none

/-- Jobs contributed by a single URL candidate `temp` (the line remainder
after tag handling) under the active type `cur`: the body of the
`if current_type:` block of `_parse_custom_urls` (lines 62-84), including
the `[filename]` extraction and the destination lookup that guards
emission (the warning branch emits nothing). -/
def lineJobs (cur : Option DType) (temp : Str) : List DJob :=
  if temp.isEmpty then []
  else
    match cur with
    | none => []
    | some t =>
      match bracketMatch temp with
      | some inner =>
        let url := pyStrip (pyReplace temp ('[' :: (inner ++ [']'])) [])
        (match DESTINATION_MAP t with
         | some d => [⟨url, d, some inner⟩]
         | none => [])
      | none =>
        match DESTINATION_MAP t with
        | some d => [⟨temp, d, none⟩]
        | none => []

/-- One iteration of the line loop of `_parse_custom_urls` (lines 46-84):
strip the line, skip blanks and `//` comments, update the carried type on
a first-matching tag from `TAG_LIST` (the remainder after the tag becomes
the URL candidate), and emit that line's jobs. -/
def parseLineStep (cur : Option DType) (l : Str) : Option DType × List DJob :=
  let line := pyStrip l
  if line.isEmpty || "//".toList.isPrefixOf line then (cur, [])
  else
    match TAG_LIST.find? (fun p => p.1.isPrefixOf (lowerStr line)) with
    | some p =>
      (some p.2, lineJobs (some p.2) (pyStrip (line.drop p.1.length)))
    | none => (cur, lineJobs cur line)

/-- The full line loop of `_parse_custom_urls`, threading the carried
type through the lines and concatenating each line's jobs in order. -/
def parseLines : Option DType → List Str → List DJob
  | _, [] => []
  | cur, l :: ls =>
    (parseLineStep cur l).2 ++ parseLines (parseLineStep cur l).1 ls

/-- `_parse_custom_urls` of modules/model_parser.py. -/
def parse_custom_urls (text : Str) : List DJob :=
  parseLines none (pySplitlines text)

/-- The dedup loop of `parse_download_requests` (modules/model_parser.py,
lines 115-120): keep a job iff its url was not seen before. -/
def dedupJobs (seen : List Str) : List DJob → List DJob
  | [] => []
  | j :: rest =>
    if j.url ∈ seen then dedupJobs seen rest
    else j :: dedupJobs (j.url :: seen) rest

/-- `parse_download_requests` of modules/model_parser.py, with
`widget_config` represented by its only consulted entry
`widget_config.get('custom_urls', '')`.  The dropdown branch of the source
(lines 101-104) is placeholder commentary that contributes no jobs. -/
def parse_download_requests (customUrls : Str) : List DJob :=
  let allJobs := if customUrls.isEmpty then [] else parse_custom_urls customUrls
  dedupJobs [] allJobs

/-! ## modules/downloader.py -/

/-- Python exception classes relevant to the two downloaders:
`requests.exceptions.RequestException` (the only class the `except`
clause of `download_file` in modules/downloader.py catches), `NameError`
(raised by that module's unimported `urlparse`), and `AttributeError`
(raised by `target_path.parent` when `target_path` is the plain string
stored by `get_download_list`, in scripts/downloader.py). -/
inductive PyExc where
  | requestException
  | nameError
  | attributeError
deriving DecidableEq, Repr

/-- The successful result of `requests.get`, as consumed by
`download_file`: only the response headers matter to the modelled
control flow (`statusOk` stands for `raise_for_status()` not raising). -/
structure PyResponse where
  statusOk : Bool
  contentDisposition : Option Str
deriving DecidableEq, Repr

/-- `re.findall('filename="?([^"]+)"?', d)` restricted to its first
match: scan left to right for `filename=`, optionally skip one `'"'`,
then capture a maximal non-empty run of non-quote characters; if the
capture would be empty the engine moves one character forward. -/
def parseContentDisposition : Str → Option Str
  | [] => none
  | s@(_ :: rest) =>
    if "filename=".toList.isPrefixOf s then
      let after := s.drop "filename=".toList.length
      let after2 := match after with
        | '"' :: r => r
        | _ => after
      let capture := after2.takeWhile (fun c => c ≠ '"')
      if capture.isEmpty then parseContentDisposition rest else some capture
    else parseContentDisposition rest

/-- `_get_filename` of modules/downloader.py (lines 8-26).  Steps, in
order: (1) the provided filename if truthy; (2) the first
content-disposition match; (3) `Path(urlparse(url).path).name` — but
`urlparse` is never imported in modules/downloader.py, so reaching step
(3) raises `NameError`, modelled as `Except.error`. -/
def get_filename (_url : Str) (resp : PyResponse) (provided : Option Str) :
    Except PyExc Str :=
  if !(provided.getD []).isEmpty then .ok (provided.getD [])
  else
    match resp.contentDisposition with
    | some d =>
      match parseContentDisposition d with
      | some f => .ok f
      | none => .error .nameError
    | none => .error .nameError

/-- `download_file` of modules/downloader.py (lines 28-66).  `resp = none`
models `requests.get` itself raising a `RequestException` (caught, job
fails); a non-ok status makes `raise_for_status` raise (caught, job
fails); the `NameError` from `get_filename` is NOT caught, because the
`except` clause names only `requests.exceptions.RequestException` — it
escapes as `Except.error`.  Directory creation and the chunk-writing loop
are abstracted: with a resolved filename the download succeeds. -/
def download_file (url : Str) (resp : Option PyResponse) (fileName : Option Str) :
    Except PyExc Bool :=
  match resp with
  | none => .ok false
  | some r =>
    if !r.statusOk then .ok false
    else
      match get_filename url r fileName with
      | .error e => .error e
      | .ok finalName => if finalName.isEmpty then .ok false else .ok true

/-- The per-job loop of `download_files` (modules/downloader.py,
lines 85-104), counting successes and failures.  A job with a falsy url
or destination is counted failed without calling `download_file`;
otherwise the job's `download_file` outcome (abstracted as `outcome`)
decides the tally: a returned boolean is counted and the loop continues,
but a raised exception — such as the uncaught `NameError` that
`download_file` lets escape — propagates out of `download_files`
(`.error`): the loop stops at that job, later jobs are not attempted and
no summary is printed. -/
def download_files_counts (outcome : DJob → Except PyExc Bool) :
    List DJob → Except PyExc (Nat × Nat)
  | [] => .ok (0, 0)
  | j :: rest =>
    if j.url.isEmpty || j.destination.isEmpty then
      match download_files_counts outcome rest with
      | .error e => .error e
      | .ok r => .ok (r.1, r.2 + 1)
    else
      match outcome j with
      | .error e => .error e
      | .ok b =>
        match download_files_counts outcome rest with
        | .error e => .error e
        | .ok r => .ok (if b then (r.1 + 1, r.2) else (r.1, r.2 + 1))

/-! ## Docs/Implementation/LSDAI-Simplified/scripts/downloader.py -/

/-- The four transport strategies of `SimpleDownloader.download_model`. -/
inductive DMethod where
  | aria2c | wget | curl | python
deriving DecidableEq, Repr

/-- The `methods` list built in `download_model` (lines 68-77): aria2c
first when available, then wget, curl and the native python client. -/
def downloadMethods (aria2cAvailable : Bool) : List DMethod :=
  (if aria2cAvailable then [DMethod.aria2c] else []) ++
  [DMethod.wget, DMethod.curl, DMethod.python]

/-- The strategy loop of `download_model` (lines 79-91): each strategy
run yields `.ok true` (success, return True immediately), `.ok false`
(failure, fall through) or `.error ()` (an exception raised inside the
strategy, caught by the `except` clause and also falling through). -/
def runMethods (run : DMethod → Except Unit Bool) : List DMethod → Bool
  | [] => false
  | m :: ms =>
    match run m with
    | .ok true => true
    | _ => runMethods run ms

/-- `SimpleDownloader.download_model` (lines 56-91).  Lines 58-63 first
resolve `target_path = model_info.get('target_path',
self.downloads_path / filename)` and call
`target_path.parent.mkdir(parents=True, exist_ok=True)`: when the dict
carries the `target_path` key — as every item built by
`get_download_list` does, always holding the plain string formatted at
Docs model_parser line 237 — `.parent` is attribute access on a `str`
and raises `AttributeError`, uncaught inside `download_model` (its only
`try` wraps the per-strategy calls), before any strategy is consulted;
the exception propagates to the caller.  Only when the key is absent
does the `Path` default make line 63 succeed (directory creation
abstracted as succeeding) and the strategy loop of lines 79-91 run, with
per-strategy outcomes abstracted by `run`.  The `url` and `filename`
dict reads of lines 58-59 always succeed on the pipeline's items and do
not affect control flow. -/
def download_model (_url _filename : Str) (targetPathEntry : Option Str)
    (aria2cAvailable : Bool) (run : DMethod → Except Unit Bool) :
    Except PyExc Bool :=
  match targetPathEntry with
  | some _ => .error .attributeError
  | none => .ok (runMethods run (downloadMethods aria2cAvailable))

/-- The cumulative byte counts after each non-empty chunk of
`_download_with_python`'s streaming loop (empty chunks are skipped by
`if chunk:`). -/
def cumulativeSums (acc : Nat) : List Nat → List Nat
  | [] => []
  | c :: rest =>
    if c = 0 then cumulativeSums acc rest
    else (acc + c) :: cumulativeSums (acc + c) rest

/-- The progress-callback argument sequence of `_download_with_python`
(lines 218-243): after writing each non-empty chunk, when
`total_size > 0`, the callback receives `(downloaded / total_size) * 100`
(exact rational arithmetic models the Python float expression).
`totalSize` is `int(r.headers.get('content-length', 0))`. -/
def pythonProgressGo (totalSize : Nat) (downloaded : Nat) : List Nat → List ℚ
  | [] => []
  | c :: rest =>
    if c = 0 then pythonProgressGo totalSize downloaded rest
    else
      let d := downloaded + c
      if 0 < totalSize then
        ((d : ℚ) / (totalSize : ℚ)) * 100 :: pythonProgressGo totalSize d rest
      else pythonProgressGo totalSize d rest

/-- Progress values emitted for one `_download_with_python` attempt,
given the content-length header value and the received chunk sizes. -/
def pythonProgressEvents (totalSize : Nat) (chunks : List Nat) : List ℚ :=
  pythonProgressGo totalSize 0 chunks

/-! ## Docs/Implementation/LSDAI-Simplified/modules/model_parser.py -/

/-- A valid URL scheme per `urllib.parse`: a leading ASCII letter followed
by letters, digits, `'+'`, `'-'` or `'.'`. -/
def validScheme (s : Str) : Bool :=
  match s with
  | [] => false
  | c :: rest =>
    c.isAlpha && rest.all (fun d => d.isAlphanum || d = '+' || d = '-' || d = '.')

/-- Scheme splitting step of `urllib.parse.urlsplit`: if the text before
the first `':'` is a valid non-empty scheme, return it lowercased with the
remainder, else no scheme. -/
def splitScheme (url : Str) : Str × Str :=
  let pre := url.takeWhile (fun c => c ≠ ':')
  if pre.length < url.length && validScheme pre then
    (lowerStr pre, url.drop (pre.length + 1))
  else ([], url)

/-- Delimiters ending the netloc in `urllib.parse.urlsplit`. -/
def netlocDelim (c : Char) : Bool := c = '/' || c = '?' || c = '#'

/-- Netloc splitting step of `urlsplit`: a netloc is present exactly when
the remainder starts with `"//"`, and runs to the next `/`, `?` or `#`. -/
def splitNetloc (rest : Str) : Str × Str :=
  match rest with
  | '/' :: '/' :: r =>
    (r.takeWhile (fun c => !netlocDelim c), r.dropWhile (fun c => !netlocDelim c))
  | _ => ([], rest)

/-- `urlsplit` raises `ValueError` when the netloc has an unbalanced
square bracket. -/
def netlocBad (n : Str) : Bool :=
  (n.contains '[' && !n.contains ']') || (n.contains ']' && !n.contains '[')

/-- The params-splitting step of `urllib.parse.urlparse`
(`_splitparams`): cut the path at the first `';'` occurring in its last
`/`-separated segment. -/
def pySplitParams (p : Str) : Str :=
  if p.contains '/' then
    let revp := p.reverse
    let lastSeg := (revp.takeWhile (fun c => c ≠ '/')).reverse
    if lastSeg.contains ';' then
      (revp.dropWhile (fun c => c ≠ '/')).reverse ++
        lastSeg.takeWhile (fun c => c ≠ ';')
    else p
  else if p.contains ';' then p.takeWhile (fun c => c ≠ ';') else p

/-- `urllib.parse.urlparse`, restricted to the `(scheme, netloc, path)`
components the repository consumes; `none` models the `ValueError` raised
on an unbalanced bracket in the netloc.  The path is the remainder up to
the first `'?'` or `'#'`, with params split off as in `urlparse`. -/
def pyUrlparse (url : Str) : Option (Str × Str × Str) :=
  let s1 := splitScheme url
  let s2 := splitNetloc s1.2
  if netlocBad s2.1 then none
  else
    some (s1.1, s2.1,
      pySplitParams (s2.2.takeWhile (fun c => c ≠ '?' && c ≠ '#')))

/-- `ModelTextParser._is_valid_url` (Docs model_parser lines 53-59):
`urlparse` succeeds and both scheme and netloc are non-empty (any
exception yields False). -/
def is_valid_url (s : Str) : Bool :=
  match pyUrlparse s with
  | none => false
  | some r => !r.1.isEmpty && !r.2.1.isEmpty

/-- `ModelTextParser._get_host_name` (lines 123-129). -/
def get_host_name (s : Str) : Str :=
  match pyUrlparse s with
  | none => "unknown".toList
  | some r => r.2.1

/-- The file extensions recognised by `_clean_filename`'s first regex. -/
def EXT_SUFFIXES : List Str :=
  [".safetensors".toList, ".ckpt".toList, ".pt".toList,
   ".bin".toList, ".pth".toList, ".vae".toList]

/-- First regex of `_clean_filename`: strip one trailing recognised
extension, case-insensitively (the pattern is anchored at the end, and no
two alternatives can both be suffixes of one name). -/
def stripExtSuffix (f : Str) : Str :=
  match EXT_SUFFIXES.find? (fun e => e.isSuffixOf (lowerStr f)) with
  | some e => f.take (f.length - e.length)
  | none => f

/-- Second regex of `_clean_filename`: `re.sub(r'[^\w\s-]', '', ...)`
keeps word characters (letters, digits, underscore), whitespace and
hyphens. -/
def keepWordChar (c : Char) : Bool :=
  c.isAlphanum || c = '_' || pyIsSpace c || c = '-'

/-- Third regex of `_clean_filename`: `re.sub(r'[-\s]+', '-', ...)`
collapses every run of hyphens and whitespace into a single hyphen. -/
def collapseRunsGo (prevRun : Bool) : Str → Str
  | [] => []
  | c :: rest =>
    if c = '-' || pyIsSpace c then
      if prevRun then collapseRunsGo true rest
      else '-' :: collapseRunsGo true rest
    else c :: collapseRunsGo false rest

/-- `ModelTextParser._clean_filename` (lines 91-103). -/
def clean_filename (f : Str) : Str :=
  let f1 := stripExtSuffix f
  let f2 := f1.filter keepWordChar
  let f3 := collapseRunsGo false f2
  let f4 := pyStripHyphens f3
  if f4.isEmpty then "model".toList else f4

/-- `ModelTextParser._get_file_extension` (lines 105-121): first
matching substring of the lowercased url, in source order. -/
def get_file_extension (url : Str) : Str :=
  let u := lowerStr url
  if strContains u ".safetensors".toList then ".safetensors".toList
  else if strContains u ".ckpt".toList then ".ckpt".toList
  else if strContains u ".pt".toList then ".pt".toList
  else if strContains u ".bin".toList then ".bin".toList
  else if strContains u ".pth".toList then ".pth".toList
  else if strContains u ".vae".toList then ".vae".toList
  else []

/-- One parsed model dict of the Docs parser. -/
structure ModelInfo where
  url : Str
  name : Str
  filename : Str
  extension : Str
  host : Str
deriving DecidableEq, Repr

/-- Last `/`-separated segment, as `path.split('/')[-1]`. -/
def lastPathSegment (p : Str) : Str :=
  (p.reverse.takeWhile (fun c => c ≠ '/')).reverse

/-- `ModelTextParser._extract_model_info` (lines 61-89).  With both
brackets present the name is the text between the first `'['` and the
first `']'` (independent positions, empty if reversed) stripped, and the
url is the part before the first `'['` stripped; otherwise the name is
the last path segment of `urlparse(url).path` and the url is unchanged.
In the parse flow the no-bracket branch only runs on urls already
accepted by `is_valid_url`, so the `ValueError` case of `urlparse`
(modelled by the `[]` default) is unreachable there. -/
def extract_model_info (url : Str) : ModelInfo :=
  let nameClean :=
    if url.contains '[' && url.contains ']' then
      let iL := url.findIdx (fun c => c = '[')
      let iR := url.findIdx (fun c => c = ']')
      pyStrip ((url.take iR).drop (iL + 1))
    else
      match pyUrlparse url with
      | some r => lastPathSegment r.2.2
      | none => []
  let cleanUrl :=
    if url.contains '[' && url.contains ']' then
      pyStrip (url.takeWhile (fun c => c ≠ '['))
    else url
  let name := clean_filename nameClean
  let ext0 := get_file_extension url
  let ext := if ext0.isEmpty then ".safetensors".toList else ext0
  { url := cleanUrl
    name := name
    filename := name ++ ext
    extension := ext
    host := get_host_name cleanUrl }

/-- The SDXL indicator substrings of `_categorize_model` (lines 137-140). -/
def SDXL_INDICATORS : List Str :=
  ["sdxl".toList, "xl".toList, "sd xl".toList, "stablediffusion xl".toList,
   "sd_xl".toList, "stable-xl".toList, "stablediffusion-xl".toList]

/-- The SD1.5 indicator substrings of `_categorize_model` (lines 143-146). -/
def SD15_INDICATORS : List Str :=
  ["sd1.5".toList, "sd 1.5".toList, "sd15".toList,
   "stable-diffusion-1.5".toList, "sd_1_5".toList,
   "stable-diffusion-1-5".toList]

/-- `f"{url_lower} {name_lower}"`: the text `_categorize_model` scans —
note it is built from the raw line passed as `url`, not from the model's
cleaned url. -/
def sdxlCheckText (url : Str) (m : ModelInfo) : Str :=
  lowerStr url ++ ' ' :: lowerStr m.name

/-- Whether any SDXL indicator occurs in the scanned text. -/
def hasSdxlIndicator (t : Str) : Bool :=
  SDXL_INDICATORS.any (fun i => strContains t i)

/-- Whether any SD1.5 indicator occurs in the scanned text. -/
def hasSd15Indicator (t : Str) : Bool :=
  SD15_INDICATORS.any (fun i => strContains t i)

/-- The two top-level buckets of the Docs parser. -/
inductive SDKind where
  | sd15 | sdxl
deriving DecidableEq, Repr

/-- The five category keys of the Docs parser
(`['$ckpt','$lora','$vae','$controlnet','$embeddings']`, `$` removed). -/
inductive MCat where
  | ckpt | lora | vae | controlnet | embeddings
deriving DecidableEq, Repr

/-- `ModelTextParser._categorize_model` (lines 131-160): SDXL indicators
checked first; with none present the result is `sd15` whether or not an
SD1.5 indicator occurs. -/
def categorize_model (url : Str) (m : ModelInfo) : SDKind :=
  let t := sdxlCheckText url m
  if hasSdxlIndicator t then .sdxl
  else if hasSd15Indicator t then .sd15
  else .sd15

/-- One `{'ckpt': [...], ..., 'embeddings': [...]}` level of the models
dict. -/
structure SDBuckets where
  ckpt : List ModelInfo
  lora : List ModelInfo
  vae : List ModelInfo
  controlnet : List ModelInfo
  embeddings : List ModelInfo
deriving DecidableEq, Repr

/-- Bucket lookup by category key. -/
def SDBuckets.get (b : SDBuckets) : MCat → List ModelInfo
  | .ckpt => b.ckpt
  | .lora => b.lora
  | .vae => b.vae
  | .controlnet => b.controlnet
  | .embeddings => b.embeddings

/-- Append a model to one category list, as `models[category][cat].append`. -/
def SDBuckets.add (b : SDBuckets) (c : MCat) (m : ModelInfo) : SDBuckets :=
  match c with
  | .ckpt => { b with ckpt := b.ckpt ++ [m] }
  | .lora => { b with lora := b.lora ++ [m] }
  | .vae => { b with vae := b.vae ++ [m] }
  | .controlnet => { b with controlnet := b.controlnet ++ [m] }
  | .embeddings => { b with embeddings := b.embeddings ++ [m] }

/-- The full models dict returned by `parse_text_input`: exactly the two
top-level keys `sd15` and `sdxl`, each holding exactly the five category
lists (the structure type embeds the fixed key sets of lines 23-26). -/
structure ParsedModels where
  sd15 : SDBuckets
  sdxl : SDBuckets
deriving DecidableEq, Repr

/-- Top-level bucket lookup. -/
def ParsedModels.get (pm : ParsedModels) : SDKind → SDBuckets
  | .sd15 => pm.sd15
  | .sdxl => pm.sdxl

/-- Append a model under one `(sd kind, category)` pair. -/
def ParsedModels.add (pm : ParsedModels) (k : SDKind) (c : MCat) (m : ModelInfo) :
    ParsedModels :=
  match k with
  | .sd15 => { pm with sd15 := pm.sd15.add c m }
  | .sdxl => { pm with sdxl := pm.sdxl.add c m }

/-- The empty models dict initialised at lines 23-26. -/
def emptyParsed : ParsedModels :=
  ⟨⟨[], [], [], [], []⟩, ⟨[], [], [], [], []⟩⟩

/-- The category markers `self.categories` with their parsed keys
(`line[1:]`). -/
def markerToCat (line : Str) : Option MCat :=
  if line = "$ckpt".toList then some .ckpt
  else if line = "$lora".toList then some .lora
  else if line = "$vae".toList then some .vae
  else if line = "$controlnet".toList then some .controlnet
  else if line = "$embeddings".toList then some .embeddings
  else none

/-- One iteration of the line loop of `parse_text_input` (lines 31-49):
skip blank lines, switch category on an exact marker, and otherwise, when
a category is active and the line passes `is_valid_url`, append the
extracted model under the kind chosen by `categorize_model` (the
`if model_info:` and `if category in models ...` guards of the source are
always satisfied: extraction always returns a dict, and the computed keys
always exist). -/
def ptStep (st : Option MCat × ParsedModels) (rawLine : Str) :
    Option MCat × ParsedModels :=
  let line := pyStrip rawLine
  if line.isEmpty then st
  else
    match markerToCat line with
    | some c => (some c, st.2)
    | none =>
      match st.1 with
      | some cat =>
        if is_valid_url line then
          let m := extract_model_info line
          (st.1, st.2.add (categorize_model line m) cat m)
        else st
      | none => st

/-- `ModelTextParser.parse_text_input` (lines 21-51):
`text.strip().split('\n')` scanned by `ptStep` from an unset category and
empty buckets. -/
def parse_text_input (text : Str) : ParsedModels :=
  ((pySplitNl (pyStrip text)).foldl ptStep (none, emptyParsed)).2

/-- `ModelTextParser._get_category_path` (lines 243-252); every `MCat`
key is present in the dict, so the `'Other'` default is unreachable. -/
def category_path : MCat → Str
  | .ckpt => "Stable-diffusion".toList
  | .lora => "Lora".toList
  | .vae => "VAE".toList
  | .controlnet => "ControlNet".toList
  | .embeddings => "embeddings".toList

/-- One entry of the flat download list built by
`ModelTextParser.get_download_list` (lines 224-241).  `targetPath` holds
the value stored under the `target_path` key: the plain STRING
`f"shared_models/{path}/{filename}"` of line 237, not a `pathlib.Path`. -/
structure DLItem where
  url : Str
  name : Str
  filename : Str
  category : MCat
  sdType : SDKind
  targetPath : Str
deriving DecidableEq, Repr

/-- The download items of one category bucket, in list order
(the innermost loop of `get_download_list`, lines 230-239). -/
def itemsOf (k : SDKind) (c : MCat) (ms : List ModelInfo) : List DLItem :=
  ms.map (fun m =>
    ⟨m.url, m.name, m.filename, c, k,
      "shared_models/".toList ++ category_path c ++ '/' :: m.filename⟩)

/-- `ModelTextParser.get_download_list` (lines 224-241): the buckets
flattened in dict insertion order — `sd15` before `sdxl`, categories in
declaration order. -/
def get_download_list (pm : ParsedModels) : List DLItem :=
  itemsOf .sd15 .ckpt pm.sd15.ckpt ++ itemsOf .sd15 .lora pm.sd15.lora ++
  itemsOf .sd15 .vae pm.sd15.vae ++
  itemsOf .sd15 .controlnet pm.sd15.controlnet ++
  itemsOf .sd15 .embeddings pm.sd15.embeddings ++
  itemsOf .sdxl .ckpt pm.sdxl.ckpt ++ itemsOf .sdxl .lora pm.sdxl.lora ++
  itemsOf .sdxl .vae pm.sdxl.vae ++
  itemsOf .sdxl .controlnet pm.sdxl.controlnet ++
  itemsOf .sdxl .embeddings pm.sdxl.embeddings

/-- How `download_models_from_text` invokes `download_model` on one
download-list item (scripts/downloader.py lines 296 and 311): the item
dict always carries the `target_path` key, holding the string of
model_parser line 237. -/
def download_model_on_item (aria2cAvailable : Bool)
    (run : DMethod → Except Unit Bool) (item : DLItem) :
    Except PyExc Bool :=
  download_model item.url item.filename (some item.targetPath)
    aria2cAvailable run

/-- What `download_models_from_text` returns for a given download list:
either the results dict of lines 270-323 (`downloaded` and `failed`
names plus `total`, with its summary message), or — when a per-item call
raises — the `{'success': False, 'message': f'Error during download:
{e}'}` dict of the outer `except Exception` at lines 325-326, which
carries none of those keys. -/
inductive SessionOutcome where
  | results (downloaded failed : List Str) (total : Nat)
  | errorMessage (e : PyExc)
deriving DecidableEq, Repr

/-- The per-model loop of `download_models_from_text` (lines 277-316):
per item, in list order, its name is appended to `downloaded` or
`failed` according to the boolean returned by the per-item call; an
exception raised by that call aborts the loop at that item — later items
are not attempted and the tallies are lost. -/
def downloadLoop (outcome : DLItem → Except PyExc Bool) :
    List DLItem → Except PyExc (List Str × List Str)
  | [] => .ok ([], [])
  | m :: ms =>
    match outcome m with
    | .error e => .error e
    | .ok b =>
      match downloadLoop outcome ms with
      | .error e => .error e
      | .ok r => .ok (if b then (m.name :: r.1, r.2) else (r.1, m.name :: r.2))

/-- `download_models_from_text` restricted to its loop over a given
download list (lines 270-326): a completed loop yields the results dict;
a raise is caught by the outer `except Exception` and turned into the
error-message dict, aborting the session.  (The early returns for blank
input, validation failure and an empty download list, lines 247-265, are
upstream of the loop this models.) -/
def download_models_session (outcome : DLItem → Except PyExc Bool)
    (items : List DLItem) : SessionOutcome :=
  match downloadLoop outcome items with
  | .ok r => .results r.1 r.2 items.length
  | .error e => .errorMessage e

/-! ## Helper lemmas -/

theorem dedupJobs_sublist (l : List DJob) :
    ∀ seen, (dedupJobs seen l).Sublist l := by
  induction l with
  | nil => intro seen; simp [dedupJobs]
  | cons j rest ih =>
    intro seen
    simp only [dedupJobs]
    split
    · exact (ih seen).cons j
    · exact (ih _).cons₂ j

theorem dedupJobs_mem {l : List DJob} {seen : List Str} {j : DJob}
    (h : j ∈ dedupJobs seen l) : j ∈ l ∧ j.url ∉ seen := by
  induction l generalizing seen with
  | nil => simp [dedupJobs] at h
  | cons a rest ih =>
    simp only [dedupJobs] at h
    split at h
    · have h2 := ih h
      exact ⟨List.mem_cons_of_mem _ h2.1, h2.2⟩
    · rename_i hns
      rcases List.mem_cons.1 h with rfl | h2
      · exact ⟨List.mem_cons_self _ _, hns⟩
      · have h3 := ih h2
        exact ⟨List.mem_cons_of_mem _ h3.1,
          fun hs => h3.2 (List.mem_cons_of_mem _ hs)⟩

theorem dedupJobs_filter_of_seen {l : List DJob} {seen : List Str} {u : Str}
    (h : u ∈ seen) :
    (dedupJobs seen l).filter (fun j => j.url == u) = [] := by
  induction l generalizing seen with
  | nil => simp [dedupJobs]
  | cons a rest ih =>
    simp only [dedupJobs]
    split
    · exact ih h
    · rename_i hns
      have hne : ¬(a.url == u) = true := by
        simp only [beq_iff_eq]
        rintro rfl
        exact hns h
      simp only [List.filter_cons, hne, if_false, Bool.false_eq_true]
      exact ih (List.mem_cons_of_mem _ h)

theorem dedupJobs_filter_count {l : List DJob} {seen : List Str} {u : Str}
    (hu : u ∉ seen) (he : ∃ j ∈ l, j.url = u) :
    ((dedupJobs seen l).filter (fun j => j.url == u)).length = 1 := by
  induction l generalizing seen with
  | nil => simp at he
  | cons a rest ih =>
    simp only [dedupJobs]
    split
    · rename_i hs
      rcases he with ⟨j, hj, hju⟩
      rcases List.mem_cons.1 hj with rfl | hjr
      · exact absurd (hju ▸ hs) hu
      · exact ih hu ⟨j, hjr, hju⟩
    · rename_i hns
      by_cases hau : a.url = u
      · subst hau
        have hnil := @dedupJobs_filter_of_seen rest (a.url :: seen) a.url
          (List.mem_cons_self _ _)
        simp [List.filter_cons, hnil]
      · have he2 : ∃ j ∈ rest, j.url = u := by
          rcases he with ⟨j, hj, hju⟩
          rcases List.mem_cons.1 hj with rfl | hjr
          · exact absurd hju hau
          · exact ⟨j, hjr, hju⟩
        have hu2 : u ∉ a.url :: seen := by
          intro hmem
          rcases List.mem_cons.1 hmem with h | h
          · exact hau h.symm
          · exact hu h
        have hne : ¬(a.url == u) = true := by
          simp only [beq_iff_eq]; exact hau
        simp only [List.filter_cons, hne, if_false, Bool.false_eq_true]
        exact ih hu2 he2

theorem dedupJobs_find_eq {l : List DJob} {seen : List Str} {u : Str}
    (hu : u ∉ seen) :
    (dedupJobs seen l).find? (fun j => j.url == u) =
      l.find? (fun j => j.url == u) := by
  induction l generalizing seen with
  | nil => simp [dedupJobs]
  | cons a rest ih =>
    simp only [dedupJobs]
    split
    · rename_i hs
      have hne : ¬(a.url == u) = true := by
        simp only [beq_iff_eq]
        rintro rfl
        exact hu hs
      rw [show List.find? (fun j => j.url == u) (a :: rest) =
          List.find? (fun j => j.url == u) rest from
        List.find?_cons_of_neg _ hne]
      exact ih hu
    · by_cases hau : a.url = u
      · have hpos : (a.url == u) = true := by simp [hau]
        rw [show List.find? (fun j => j.url == u)
              (a :: dedupJobs (a.url :: seen) rest) = some a from
            List.find?_cons_of_pos _ hpos,
          show List.find? (fun j => j.url == u) (a :: rest) = some a from
            List.find?_cons_of_pos _ hpos]
      · have hne : ¬(a.url == u) = true := by
          simp only [beq_iff_eq]; exact hau
        have hu2 : u ∉ a.url :: seen := by
          intro hmem
          rcases List.mem_cons.1 hmem with h | h
          · exact hau h.symm
          · exact hu h
        rw [show List.find? (fun j => j.url == u)
              (a :: dedupJobs (a.url :: seen) rest) =
              List.find? (fun j => j.url == u) (dedupJobs (a.url :: seen) rest) from
            List.find?_cons_of_neg _ hne,
          show List.find? (fun j => j.url == u) (a :: rest) =
              List.find? (fun j => j.url == u) rest from
            List.find?_cons_of_neg _ hne]
        exact ih hu2

theorem parse_download_requests_eq_dedup (c : Str) :
    parse_download_requests c = dedupJobs [] (parse_custom_urls c) := by
  unfold parse_download_requests
  by_cases h : c.isEmpty
  · have hc : c = [] := by
      cases c with
      | nil => rfl
      | cons a l => simp [List.isEmpty] at h
    subst hc
    rfl
  · simp [h]

theorem lineJobs_none_eq (temp : Str) : lineJobs none temp = [] := by
  unfold lineJobs
  split <;> rfl

theorem lineJobs_mem_url_or_file {cur : Option DType} {temp : Str} {j : DJob}
    (h : j ∈ lineJobs cur temp) :
    j.url ≠ [] ∨ j.fileName.isSome = true := by
  unfold lineJobs at h
  split at h
  · simp at h
  · rename_i hne
    split at h
    · simp at h
    · split at h
      · split at h
        · rw [List.mem_singleton] at h
          subst h
          right
          rfl
        · simp at h
      · split at h
        · rw [List.mem_singleton] at h
          subst h
          left
          intro hnil
          exact hne (by simp [show temp = [] from hnil])
        · simp at h

theorem parseLines_mem_url_or_file {ls : List Str} {cur : Option DType} {j : DJob}
    (h : j ∈ parseLines cur ls) :
    j.url ≠ [] ∨ j.fileName.isSome = true := by
  induction ls generalizing cur with
  | nil => simp [parseLines] at h
  | cons l rest ih =>
    simp only [parseLines, List.mem_append] at h
    rcases h with h | h
    · simp only [parseLineStep] at h
      split at h
      · simp at h
      · split at h <;> exact lineJobs_mem_url_or_file (by simpa using h)
    · exact ih h

theorem parseLines_of_no_tag {ls : List Str}
    (h : ∀ l ∈ ls,
      TAG_LIST.find? (fun p => p.1.isPrefixOf (lowerStr (pyStrip l))) = none) :
    parseLines none ls = [] := by
  induction ls with
  | nil => rfl
  | cons l rest ih =>
    have h1 := h l (List.mem_cons_self l rest)
    have hstep : parseLineStep none l = (none, []) := by
      simp only [parseLineStep]
      split
      · rfl
      · rw [h1, lineJobs_none_eq]
    simp only [parseLines, hstep]
    simpa using ih (fun x hx => h x (List.mem_cons_of_mem _ hx))

theorem ptStep_of_no_marker {pm : ParsedModels} {l : Str}
    (h : markerToCat (pyStrip l) = none) :
    ptStep (none, pm) l = (none, pm) := by
  simp only [ptStep, h]
  split <;> rfl

theorem ptFold_of_no_marker {lines : List Str} {pm : ParsedModels}
    (h : ∀ l ∈ lines, markerToCat (pyStrip l) = none) :
    lines.foldl ptStep (none, pm) = (none, pm) := by
  induction lines with
  | nil => rfl
  | cons l rest ih =>
    rw [List.foldl_cons, ptStep_of_no_marker (h l (List.mem_cons_self l rest))]
    exact ih (fun x hx => h x (List.mem_cons_of_mem _ hx))

theorem ptStep_of_invalid_url {st : Option MCat × ParsedModels} {l : Str}
    (h1 : ¬(pyStrip l).isEmpty = true)
    (h2 : markerToCat (pyStrip l) = none)
    (h3 : is_valid_url (pyStrip l) = false) :
    ptStep st l = st := by
  obtain ⟨s1, s2⟩ := st
  simp only [ptStep, h2]
  rw [if_neg h1]
  cases s1 with
  | none => rfl
  | some cat => simp [h3]

theorem mem_parsedModels_add {pm : ParsedModels} {k k2 : SDKind} {c c2 : MCat}
    {m m2 : ModelInfo} :
    m2 ∈ ((pm.add k c m).get k2).get c2 ↔
      m2 ∈ (pm.get k2).get c2 ∨ (k = k2 ∧ c = c2 ∧ m2 = m) := by
  cases k <;> cases k2 <;> cases c <;> cases c2 <;>
    simp [ParsedModels.add, ParsedModels.get, SDBuckets.add, SDBuckets.get]

theorem categorize_model_eq_sdxl_iff {url : Str} {m : ModelInfo} :
    categorize_model url m = .sdxl ↔
      hasSdxlIndicator (sdxlCheckText url m) = true := by
  simp only [categorize_model]
  cases h : hasSdxlIndicator (sdxlCheckText url m)
  · simp only [h, if_false, Bool.false_eq_true]
    constructor
    · intro hc
      split at hc <;> exact SDKind.noConfusion hc
    · intro hc
      simp at hc
  · simp [h]

theorem ptFold_mem_buckets {lines : List Str}
    {st : Option MCat × ParsedModels} {k : SDKind} {c : MCat} {m : ModelInfo}
    (h : m ∈ (((lines.foldl ptStep st).2.get k).get c)) :
    m ∈ ((st.2.get k).get c) ∨
      ∃ l, m = extract_model_info (pyStrip l) ∧
        categorize_model (pyStrip l) m = k := by
  induction lines generalizing st with
  | nil => exact .inl h
  | cons l rest ih =>
    rw [List.foldl_cons] at h
    rcases ih h with h2 | h2
    · simp only [ptStep] at h2
      split at h2
      · exact .inl h2
      · split at h2
        · exact .inl (by simpa using h2)
        · split at h2
          · split at h2
            · simp only [mem_parsedModels_add] at h2
              rcases h2 with h2 | ⟨hk, _, hm⟩
              · exact .inl h2
              · subst hm
                exact .inr ⟨l, rfl, hk⟩
            · exact .inl h2
          · exact .inl h2
    · exact .inr h2

theorem runMethods_eq_true_iff {run : DMethod → Except Unit Bool}
    {ms : List DMethod} :
    runMethods run ms = true ↔ ∃ m ∈ ms, run m = .ok true := by
  induction ms with
  | nil => simp [runMethods]
  | cons m rest ih =>
    simp only [runMethods]
    cases h : run m with
    | error e =>
      rw [ih]
      constructor
      · rintro ⟨x, hx, hrx⟩
        exact ⟨x, List.mem_cons_of_mem _ hx, hrx⟩
      · rintro ⟨x, hx, hrx⟩
        rcases List.mem_cons.1 hx with rfl | hx2
        · rw [h] at hrx
          exact absurd hrx (by simp)
        · exact ⟨x, hx2, hrx⟩
    | ok b =>
      cases b with
      | true =>
        simp only [true_iff]
        exact ⟨m, List.mem_cons_self _ _, h⟩
      | false =>
        rw [ih]
        constructor
        · rintro ⟨x, hx, hrx⟩
          exact ⟨x, List.mem_cons_of_mem _ hx, hrx⟩
        · rintro ⟨x, hx, hrx⟩
          rcases List.mem_cons.1 hx with rfl | hx2
          · rw [h] at hrx
            exact absurd hrx (by simp)
          · exact ⟨x, hx2, hrx⟩

theorem downloadLoop_ok_eq_filters (f : DLItem → Bool) (items : List DLItem) :
    downloadLoop (fun m => .ok (f m)) items =
      .ok ((items.filter (fun m => f m)).map DLItem.name,
        (items.filter (fun m => !f m)).map DLItem.name) := by
  induction items with
  | nil => rfl
  | cons m rest ih =>
    simp only [downloadLoop, ih, List.filter_cons]
    cases h : f m <;> simp [h]

theorem download_files_counts_ok_eq_filters (g : DJob → Bool)
    (jobs : List DJob) :
    download_files_counts (fun j => .ok (g j)) jobs =
      .ok ((jobs.filter
          (fun j => !j.url.isEmpty && !j.destination.isEmpty && g j)).length,
        (jobs.filter
          (fun j =>
            !(!j.url.isEmpty && !j.destination.isEmpty && g j))).length) := by
  induction jobs with
  | nil => rfl
  | cons j rest ih =>
    simp only [download_files_counts, ih, List.filter_cons]
    by_cases h1 : j.url.isEmpty <;> by_cases h2 : j.destination.isEmpty <;>
      cases h3 : g j <;> simp [h1, h2, h3]

theorem pythonProgressGo_of_total_zero (d : Nat) (chunks : List Nat) :
    pythonProgressGo 0 d chunks = [] := by
  induction chunks generalizing d with
  | nil => rfl
  | cons c rest ih =>
    simp only [pythonProgressGo]
    split
    · exact ih d
    · simp [ih]

theorem pythonProgressGo_eq_map {T : Nat} (hT : 0 < T) (chunks : List Nat)
    (d : Nat) :
    pythonProgressGo T d chunks =
      (cumulativeSums d chunks).map
        (fun s : Nat => ((s : ℚ) / (T : ℚ)) * 100) := by
  induction chunks generalizing d with
  | nil => rfl
  | cons c rest ih =>
    simp only [pythonProgressGo, cumulativeSums]
    split
    · exact ih d
    · simp [hT, ih]

theorem cumulativeSums_ge_of_mem {l : List Nat} :
    ∀ {a x : Nat}, x ∈ cumulativeSums a l → a ≤ x := by
  induction l with
  | nil => intro a x h; simp [cumulativeSums] at h
  | cons c rest ih =>
    intro a x h
    simp only [cumulativeSums] at h
    split at h
    · exact ih h
    · rcases List.mem_cons.1 h with rfl | h2
      · exact Nat.le_add_right a c
      · exact Nat.le_trans (Nat.le_add_right a c) (ih h2)

theorem cumulativeSums_le_of_mem {l : List Nat} :
    ∀ {a x : Nat}, x ∈ cumulativeSums a l → x ≤ a + l.sum := by
  induction l with
  | nil => intro a x h; simp [cumulativeSums] at h
  | cons c rest ih =>
    intro a x h
    simp only [cumulativeSums] at h
    split at h
    · rename_i hc
      subst hc
      have := ih h
      simpa using this
    · rcases List.mem_cons.1 h with rfl | h2
      · calc a + c ≤ a + c + rest.sum := Nat.le_add_right _ _
          _ = a + (c + rest.sum) := by omega
          _ = a + (c :: rest).sum := by simp
      · calc x ≤ a + c + rest.sum := ih h2
          _ = a + (c :: rest).sum := by simp; omega

theorem cumulativeSums_chain {l : List Nat} :
    ∀ {a : Nat}, List.Chain' (· ≤ ·) (cumulativeSums a l) := by
  induction l with
  | nil => intro a; simp [cumulativeSums]
  | cons c rest ih =>
    intro a
    simp only [cumulativeSums]
    split
    · exact ih
    · exact List.chain'_cons'.2
        ⟨fun y hy => cumulativeSums_ge_of_mem (List.mem_of_mem_head? hy), ih⟩

/-! ## Claims -/

/-- C1 (counterexample to the claim as stated): the input text consists of
the same URL on two lines, with no surrounding tags, yet
`parse_download_requests` returns no job at all for it — not exactly one. -/
theorem c1_dedup_counterexample :
    pySplitlines "http://x.test/a\nhttp://x.test/a".toList =
      ["http://x.test/a".toList, "http://x.test/a".toList]
    ∧ parse_download_requests "http://x.test/a\nhttp://x.test/a".toList = [] := by
  constructor
  · decide
  · decide

/-- C1 (amended): whenever at least one occurrence of a URL yields a job
in the raw job stream of `_parse_custom_urls`, the deduplicated output of
`parse_download_requests` contains exactly one job with that url, the
first job produced for it (hence the destination and filename of the
first occurrence), and the output preserves first-encounter order (it is
a sublist of the raw stream). -/
theorem c1_dedup_first_occurrence (cfg u : Str)
    (h : ∃ j ∈ parse_custom_urls cfg, j.url = u) :
    ((parse_download_requests cfg).filter (fun j => j.url == u)).length = 1
    ∧ (parse_download_requests cfg).find? (fun j => j.url == u) =
        (parse_custom_urls cfg).find? (fun j => j.url == u)
    ∧ (parse_download_requests cfg).Sublist (parse_custom_urls cfg) := by
  rw [parse_download_requests_eq_dedup]
  exact ⟨dedupJobs_filter_count (List.not_mem_nil u) h,
    dedupJobs_find_eq (List.not_mem_nil u),
    dedupJobs_sublist _ []⟩

/-- C1 witness: the spec's own example, `$lora` then `$vae` over the same
URL, instantiates the amended dedup theorem. -/
theorem c1_dedup_first_occurrence_witness :
    ((parse_download_requests
        "$lora\nhttp://x.test/a.safetensors\n$vae\nhttp://x.test/a.safetensors".toList).filter
          (fun j => j.url == "http://x.test/a.safetensors".toList)).length = 1
    ∧ (parse_download_requests
        "$lora\nhttp://x.test/a.safetensors\n$vae\nhttp://x.test/a.safetensors".toList).find?
          (fun j => j.url == "http://x.test/a.safetensors".toList) =
        (parse_custom_urls
          "$lora\nhttp://x.test/a.safetensors\n$vae\nhttp://x.test/a.safetensors".toList).find?
          (fun j => j.url == "http://x.test/a.safetensors".toList)
    ∧ (parse_download_requests
        "$lora\nhttp://x.test/a.safetensors\n$vae\nhttp://x.test/a.safetensors".toList).Sublist
        (parse_custom_urls
          "$lora\nhttp://x.test/a.safetensors\n$vae\nhttp://x.test/a.safetensors".toList) :=
  c1_dedup_first_occurrence _ _ (by decide)

/-- C2 (code bug): the strategy loop of lines 79-91 does have the
claimed behaviour — fixed order aria2c (when available), wget, curl,
python, per-strategy exceptions treated as failures and never escaping
the loop, success exactly when some strategy succeeds — and
`download_model` runs it whenever `target_path` resolves to the `Path`
default (the `target_path` key absent).  But every item the pipeline
itself builds carries that key holding the plain STRING of
`get_download_list` line 237, so `download_model` raises
`AttributeError` at line 63 (`target_path.parent` on a `str`) before
trying any strategy, and the exception propagates to the caller — shown
here for the pipeline's own single-item download list, with the strategy
outcomes `run` left arbitrary. -/
theorem c2_fallback_chain :
    downloadMethods true = [.aria2c, .wget, .curl, .python]
    ∧ downloadMethods false = [.wget, .curl, .python]
    ∧ (∀ (run : DMethod → Except Unit Bool) (avail : Bool),
        (runMethods run (downloadMethods avail) = true ↔
          ∃ m ∈ downloadMethods avail, run m = .ok true))
    ∧ (∀ (run : DMethod → Except Unit Bool) (avail : Bool) (url fn : Str),
        download_model url fn none avail run =
          .ok (runMethods run (downloadMethods avail)))
    ∧ get_download_list
        (parse_text_input "$lora\nhttp://x.test/m.pt".toList) =
        [⟨"http://x.test/m.pt".toList, "m".toList, "m.pt".toList,
          .lora, .sd15, "shared_models/Lora/m.pt".toList⟩]
    ∧ (∀ (run : DMethod → Except Unit Bool) (avail : Bool),
        download_model_on_item avail run
          ⟨"http://x.test/m.pt".toList, "m".toList, "m.pt".toList,
            .lora, .sd15, "shared_models/Lora/m.pt".toList⟩ =
          .error .attributeError) :=
  ⟨rfl, rfl, fun _ _ => runMethods_eq_true_iff, fun _ _ _ _ => rfl,
    by decide, fun _ _ => rfl⟩

/-- C3 (code bug): when every per-item call returns a boolean, the
session loop does process every item in list order with exact tallies
(`downloaded`/`failed` the order-preserving name filters, `total` the
length), and `download_files` likewise counts one outcome per job with
invalid jobs counted failed; but a raised exception aborts instead of
being tallied: the Docs session turns it into the error-message dict
with no tallies — and the pipeline's own three-item download list
raises `AttributeError` already at item 1 (string `target_path`), so
items 2 and 3 are never attempted even with `run` arbitrary — while the
modules loop propagates the `NameError` that `download_file` lets
escape, abandoning the remaining jobs and the summary. -/
theorem c3_session_contract :
    (∀ (f : DLItem → Bool) (items : List DLItem),
      download_models_session (fun m => .ok (f m)) items =
        .results ((items.filter (fun m => f m)).map DLItem.name)
          ((items.filter (fun m => !f m)).map DLItem.name) items.length)
    ∧ (∀ (g : DJob → Bool) (jobs : List DJob),
      download_files_counts (fun j => .ok (g j)) jobs =
        .ok ((jobs.filter (fun j =>
            !j.url.isEmpty && !j.destination.isEmpty && g j)).length,
          (jobs.filter (fun j =>
            !(!j.url.isEmpty && !j.destination.isEmpty && g j))).length))
    ∧ get_download_list (parse_text_input
        "$ckpt\nhttp://x.test/a.ckpt\nhttp://x.test/b.ckpt\nhttp://x.test/c.ckpt".toList) =
        [⟨"http://x.test/a.ckpt".toList, "a".toList, "a.ckpt".toList, .ckpt,
           .sd15, "shared_models/Stable-diffusion/a.ckpt".toList⟩,
         ⟨"http://x.test/b.ckpt".toList, "b".toList, "b.ckpt".toList, .ckpt,
           .sd15, "shared_models/Stable-diffusion/b.ckpt".toList⟩,
         ⟨"http://x.test/c.ckpt".toList, "c".toList, "c.ckpt".toList, .ckpt,
           .sd15, "shared_models/Stable-diffusion/c.ckpt".toList⟩]
    ∧ (∀ (run : DMethod → Except Unit Bool) (avail : Bool),
        download_models_session (download_model_on_item avail run)
          [⟨"http://x.test/a.ckpt".toList, "a".toList, "a.ckpt".toList, .ckpt,
             .sd15, "shared_models/Stable-diffusion/a.ckpt".toList⟩,
           ⟨"http://x.test/b.ckpt".toList, "b".toList, "b.ckpt".toList, .ckpt,
             .sd15, "shared_models/Stable-diffusion/b.ckpt".toList⟩,
           ⟨"http://x.test/c.ckpt".toList, "c".toList, "c.ckpt".toList, .ckpt,
             .sd15, "shared_models/Stable-diffusion/c.ckpt".toList⟩] =
          .errorMessage .attributeError)
    ∧ download_files_counts
        (fun j => download_file j.url (some ⟨true, none⟩) j.fileName)
        [⟨"http://x.test/a.bin".toList, "shared_models/VAE".toList, none⟩,
         ⟨"http://x.test/b.bin".toList, "shared_models/VAE".toList, none⟩] =
        .error .nameError := by
  refine ⟨?_, ?_, by decide, fun _ _ => rfl, rfl⟩
  · intro f items
    unfold download_models_session
    rw [downloadLoop_ok_eq_filters]
  · exact download_files_counts_ok_eq_filters

/-- C4 (counterexample to the claim as stated): a bare URL line with no
preceding tag produces NO job in either parser — it is dropped, not
emitted with category and destination `unknown`. -/
theorem c4_untagged_counterexample :
    parse_custom_urls "http://x.test/a".toList = []
    ∧ parse_text_input "http://x.test/a".toList = emptyParsed := by
  constructor
  · decide
  · decide

/-- C4 (amended): an input in which no line starts with a recognised tag
(modules parser) and no line is a category marker (Docs parser) yields an
empty job list and empty buckets: untagged URLs are silently dropped. -/
theorem c4_untagged_dropped (text : Str)
    (h1 : ∀ l ∈ pySplitlines text,
      TAG_LIST.find? (fun p => p.1.isPrefixOf (lowerStr (pyStrip l))) = none)
    (h2 : ∀ l ∈ pySplitNl (pyStrip text), markerToCat (pyStrip l) = none) :
    parse_custom_urls text = [] ∧ parse_text_input text = emptyParsed := by
  constructor
  · exact parseLines_of_no_tag h1
  · unfold parse_text_input
    rw [ptFold_of_no_marker h2]

/-- C4 witness: two bare URL lines instantiate the amended theorem. -/
theorem c4_untagged_dropped_witness :
    parse_custom_urls "http://x.test/a\nhttp://y.test/b".toList = []
    ∧ parse_text_input "http://x.test/a\nhttp://y.test/b".toList = emptyParsed :=
  c4_untagged_dropped _ (by decide) (by decide)

/-- C5 (counterexample to the claim as stated): the line
`$ckpt [name.ext]` — a tag followed only by a bracketed filename —
produces a job whose url is the EMPTY string. -/
theorem c5_url_nonempty_counterexample :
    parse_custom_urls "$ckpt [name.ext]".toList =
      [⟨[], "shared_models/Stable-diffusion".toList, some "name.ext".toList⟩] := by
  decide

/-- C5 (amended): every job emitted by `_parse_custom_urls` has a
non-empty url or a bracket-derived explicit filename; the url can be
empty only when the whole candidate was the bracketed segment. -/
theorem c5_url_or_filename (text : Str) (j : DJob)
    (h : j ∈ parse_custom_urls text) :
    j.url ≠ [] ∨ j.fileName.isSome = true :=
  parseLines_mem_url_or_file h

/-- C5 witness: a tagged plain URL line instantiates the amended
invariant. -/
theorem c5_url_or_filename_witness :
    (⟨"http://x.test/m.bin".toList, "shared_models/Stable-diffusion".toList,
        none⟩ : DJob).url ≠ []
    ∨ (⟨"http://x.test/m.bin".toList, "shared_models/Stable-diffusion".toList,
        none⟩ : DJob).fileName.isSome = true :=
  c5_url_or_filename "$ckpt\nhttp://x.test/m.bin".toList _ (by decide)

/-- C6 (counterexample to the claim as stated): the modules parser
performs no URL validation — a candidate that fails the syntactic
check of `_is_valid_url` still becomes a job (and no warning exists in
that parser). -/
theorem c6_validation_counterexample :
    parse_custom_urls "$ckpt\nnot_a_url".toList =
      [⟨"not_a_url".toList, "shared_models/Stable-diffusion".toList, none⟩]
    ∧ is_valid_url "not_a_url".toList = false := by
  constructor
  · decide
  · decide

/-- C6 (amended): in the Docs parser, a non-blank candidate line that is
not a category marker and fails `is_valid_url` produces no job and leaves
the parse state unchanged, and deleting such a line from the input leaves
the whole fold unchanged — parsing of the remaining lines continues
unaffected (the parser never raises; no warning is recorded at
parse time). -/
theorem c6_docs_validation_skip
    (st init : Option MCat × ParsedModels) (l1 l2 : List Str) (bad : Str)
    (h1 : ¬(pyStrip bad).isEmpty = true)
    (h2 : markerToCat (pyStrip bad) = none)
    (h3 : is_valid_url (pyStrip bad) = false) :
    ptStep st bad = st
    ∧ (l1 ++ bad :: l2).foldl ptStep init = (l1 ++ l2).foldl ptStep init := by
  refine ⟨ptStep_of_invalid_url h1 h2 h3, ?_⟩
  rw [List.foldl_append, List.foldl_append, List.foldl_cons,
    ptStep_of_invalid_url h1 h2 h3]

/-- C6 witness: an invalid candidate between a marker line and a valid
URL line is skipped without affecting either. -/
theorem c6_docs_validation_skip_witness :
    ptStep (some MCat.ckpt, emptyParsed) "bad url".toList =
      (some MCat.ckpt, emptyParsed)
    ∧ (["$ckpt".toList] ++ "bad url".toList ::
        ["http://x.test/ok.pt".toList]).foldl ptStep (none, emptyParsed) =
      (["$ckpt".toList] ++ ["http://x.test/ok.pt".toList]).foldl ptStep
        (none, emptyParsed) :=
  c6_docs_validation_skip _ _ _ _ _ (by decide) (by decide) (by decide)

/-- C7 (code bug): filename resolution steps 1 and 2 work as claimed, but
a job with no explicit filename and no content-disposition header never
reaches the URL-path fallback: line 26 of modules/downloader.py uses
`urlparse` without importing it, so `download_file` raises an uncaught
`NameError` (its `except` clause catches only
`requests.exceptions.RequestException`) instead of reporting a failed
download. -/
theorem c7_filename_resolution_namerror :
    get_filename "http://x.test/a.bin".toList ⟨true, none⟩
        (some "given.bin".toList) = .ok "given.bin".toList
    ∧ get_filename "http://x.test/a.bin".toList
        ⟨true, some "attachment; filename=\"from-header.bin\"".toList⟩ none
        = .ok "from-header.bin".toList
    ∧ download_file "http://x.test/a.bin".toList (some ⟨true, none⟩) none
        = .error .nameError :=
  ⟨rfl, rfl, rfl⟩

/-- C8 (counterexample to the claim as stated): a bracketed filename with
surrounding whitespace is stored verbatim — ` my.bin ` — not trimmed as
the claim requires. -/
theorem c8_bracket_counterexample :
    (parse_custom_urls "$ckpt\nhttp://x.test/a [ my.bin ]".toList).map
        DJob.fileName = [some " my.bin ".toList]
    ∧ pyStrip " my.bin ".toList = "my.bin".toList
    ∧ " my.bin ".toList ≠ "my.bin".toList := by
  refine ⟨by decide, by decide, by decide⟩

/-- C8 (amended): for a URL candidate line under an active tag, a
complete bracket pair makes the job's explicit filename the RAW matched
inner text (no whitespace trimming) while the url is the candidate with
every `[inner]` occurrence deleted and then whitespace-trimmed; without a
complete bracket pair the filename is `None` and the candidate is the url
unchanged. -/
theorem c8_bracket_extraction (cand : Str)
    (h1 : pyStrip cand = cand) (h2 : cand ≠ [])
    (h3 : "//".toList.isPrefixOf cand = false)
    (h4 : TAG_LIST.find? (fun p => p.1.isPrefixOf (lowerStr cand)) = none) :
    parseLines (some DType.model) [cand] =
      match bracketMatch cand with
      | some inner =>
        [⟨pyStrip (pyReplace cand ('[' :: (inner ++ [']'])) []),
          "shared_models/Stable-diffusion".toList, some inner⟩]
      | none => [⟨cand, "shared_models/Stable-diffusion".toList, none⟩] := by
  have hne : cand.isEmpty = false := by
    cases cand with
    | nil => exact absurd rfl h2
    | cons a l => rfl
  simp only [parseLines, parseLineStep, h1, hne, h3, Bool.or_self,
    Bool.false_eq_true, if_false, h4, lineJobs]
  cases hb : bracketMatch cand with
  | some inner => simp [DESTINATION_MAP]
  | none => simp [DESTINATION_MAP]

/-- C8 witness: a candidate with a bracketed filename instantiates the
amended extraction theorem. -/
theorem c8_bracket_extraction_witness :
    parseLines (some DType.model) ["http://x.test/a [f.bin]".toList] =
      match bracketMatch "http://x.test/a [f.bin]".toList with
      | some inner =>
        [⟨pyStrip (pyReplace "http://x.test/a [f.bin]".toList
            ('[' :: (inner ++ [']'])) []),
          "shared_models/Stable-diffusion".toList, some inner⟩]
      | none =>
        [⟨"http://x.test/a [f.bin]".toList,
          "shared_models/Stable-diffusion".toList, none⟩] :=
  c8_bracket_extraction _ (by decide) (by decide) (by decide) (by decide)

/-- C9 (counterexample to the claim as stated): with a content-length of
100 and a single 8192-byte chunk, the native strategy reports 8192 — the
callback value is NOT bounded by 100 (the code never clamps when the body
exceeds the content-length header). -/
theorem c9_progress_counterexample :
    pythonProgressEvents 100 [8192] = [(8192 : ℚ)]
    ∧ ¬((8192 : ℚ) ≤ 100) := by
  constructor
  · norm_num [pythonProgressEvents, pythonProgressGo]
  · norm_num

/-- C9 (amended): within one `_download_with_python` attempt the reported
percentages are non-decreasing and non-negative, each equals
`(bytes written so far / content-length) * 100`, they are bounded by 100
whenever the total received bytes do not exceed the content-length, and
no callback fires when the content-length header is absent (zero). -/
theorem c9_progress_properties (T : Nat) (chunks : List Nat) :
    List.Chain' (· ≤ ·) (pythonProgressEvents T chunks)
    ∧ (∀ x ∈ pythonProgressEvents T chunks, 0 ≤ x)
    ∧ (T = 0 → pythonProgressEvents T chunks = [])
    ∧ (chunks.sum ≤ T → ∀ x ∈ pythonProgressEvents T chunks, x ≤ 100)
    ∧ (0 < T → pythonProgressEvents T chunks =
        (cumulativeSums 0 chunks).map
          (fun s : Nat => ((s : ℚ) / (T : ℚ)) * 100)) := by
  rcases Nat.eq_zero_or_pos T with hT | hT
  · subst hT
    unfold pythonProgressEvents
    rw [pythonProgressGo_of_total_zero]
    refine ⟨by simp, by simp, fun _ => rfl, by simp, ?_⟩
    intro h0
    exact absurd h0 (by omega)
  · have hTpos : (0 : ℚ) < (T : ℚ) := by exact_mod_cast hT
    unfold pythonProgressEvents
    rw [pythonProgressGo_eq_map hT chunks 0]
    refine ⟨?_, ?_, ?_, ?_, fun _ => rfl⟩
    · rw [List.chain'_map]
      refine cumulativeSums_chain.imp ?_
      intro a b hab
      have hc : (a : ℚ) ≤ (b : ℚ) := by exact_mod_cast hab
      gcongr
    · intro x hx
      rcases List.mem_map.1 hx with ⟨s, _, rfl⟩
      positivity
    · intro h0
      exact absurd h0 (by omega)
    · intro hsum x hx
      rcases List.mem_map.1 hx with ⟨s, hs, rfl⟩
      have hsT : s ≤ T := by
        have := cumulativeSums_le_of_mem hs
        simpa using le_trans this (by simpa using hsum)
      have hc : (s : ℚ) ≤ (T : ℚ) := by exact_mod_cast hsT
      rw [div_mul_eq_mul_div, div_le_iff₀ hTpos]
      calc (s : ℚ) * 100 ≤ (T : ℚ) * 100 := by gcongr
        _ = 100 * (T : ℚ) := mul_comm _ _

/-- C9 witness: content-length 10 with chunks 4 and 6 instantiates the
amended progress theorem (the positivity hypothesis discharged at 10). -/
theorem c9_progress_properties_witness :
    pythonProgressEvents 10 [4, 6] =
      (cumulativeSums 0 [4, 6]).map
        (fun s : Nat => ((s : ℚ) / (10 : ℚ)) * 100) :=
  (c9_progress_properties 10 [4, 6]).2.2.2.2 (by decide)

/-- C10 (counterexample to the claim as stated): the line
`http://a.b/m [f] xl-extra` is accepted and lands in the `sdxl` ckpt
bucket, yet neither the model's cleaned url nor its cleaned name contains
ANY SDXL indicator — the categoriser scans the raw line (whose dropped
tail holds the `xl`), not the stored fields. -/
theorem c10_sdxl_counterexample :
    ((parse_text_input "$ckpt\nhttp://a.b/m [f] xl-extra".toList).get
        .sdxl).get .ckpt =
      [⟨"http://a.b/m".toList, "f".toList, "f.safetensors".toList,
        ".safetensors".toList, "a.b".toList⟩]
    ∧ (SDXL_INDICATORS.all (fun i =>
        !(strContains (lowerStr "http://a.b/m".toList) i) &&
        !(strContains (lowerStr "f".toList) i))) = true := by
  refine ⟨by decide, by decide⟩

/-- C10 (amended): `parse_text_input` always returns the fixed
two-by-five bucket structure, and an accepted model is placed under
`sdxl` exactly when the lowercased RAW source line, concatenated with a
space and the lowercased cleaned name, contains an SDXL indicator (every
model in an `sdxl` bucket comes from such a line; every model in an
`sd15` bucket from a line without one). -/
theorem c10_sdxl_placement (text : Str) (c : MCat) :
    (∀ m ∈ ((parse_text_input text).get .sdxl).get c,
      ∃ l, m = extract_model_info (pyStrip l) ∧
        hasSdxlIndicator (sdxlCheckText (pyStrip l) m) = true)
    ∧ (∀ m ∈ ((parse_text_input text).get .sd15).get c,
      ∃ l, m = extract_model_info (pyStrip l) ∧
        hasSdxlIndicator (sdxlCheckText (pyStrip l) m) = false) := by
  constructor
  · intro m hm
    unfold parse_text_input at hm
    rcases ptFold_mem_buckets hm with h | ⟨l, hml, hk⟩
    · cases c <;> simp [emptyParsed, ParsedModels.get, SDBuckets.get] at h
    · exact ⟨l, hml, categorize_model_eq_sdxl_iff.1 hk⟩
  · intro m hm
    unfold parse_text_input at hm
    rcases ptFold_mem_buckets hm with h | ⟨l, hml, hk⟩
    · cases c <;> simp [emptyParsed, ParsedModels.get, SDBuckets.get] at h
    · refine ⟨l, hml, ?_⟩
      cases hx : hasSdxlIndicator (sdxlCheckText (pyStrip l) m)
      · rfl
      · have hcat := categorize_model_eq_sdxl_iff.2 hx
        rw [hk] at hcat
        exact SDKind.noConfusion hcat

/-- C10 witness: an sdxl-named lora instantiates the placement theorem at
its bucket membership. -/
theorem c10_sdxl_placement_witness :
    ∃ l, (⟨"http://h.i/sdxl-lora.pt".toList, "sdxl-lora".toList,
        "sdxl-lora.pt".toList, ".pt".toList, "h.i".toList⟩ : ModelInfo) =
        extract_model_info (pyStrip l) ∧
      hasSdxlIndicator (sdxlCheckText (pyStrip l)
        ⟨"http://h.i/sdxl-lora.pt".toList, "sdxl-lora".toList,
          "sdxl-lora.pt".toList, ".pt".toList, "h.i".toList⟩) = true :=
  (c10_sdxl_placement "$lora\nhttp://h.i/sdxl-lora.pt".toList .lora).1 _ (by decide)
